import Mathlib

/-!
Shallow embedding of the `linear_alg` Rust library (src/src/lib.rs).

The `Vec3` struct holds three `f64` fields; we model the components as
real numbers. The Rust operations that can panic through `assert_ne!`
(vector-vector division, vector-scalar division, and everything built on
them such as `normalize` and `reflect`) are modelled as `Option`-valued
functions where `none` is the fatal "Division by 0" panic. All other
operations are total and modelled directly.

The two random sampling functions draw from a thread-local RNG; we model
the draw as an explicit argument: `inUnitCube` captures the contract of
`rand_in_unit_cube` (each component uniform in the closed range [-1, 1]),
and `rand_on_unit_sphere_body` is one iteration of the rejection loop of
`rand_on_unit_sphere` applied to a given cube draw.
-/

noncomputable section

namespace LinAlg

/-- Embedding of `pub struct Vec3 { x: f64, y: f64, z: f64 }`. -/
@[ext]
structure Vec3 where
  x : ℝ
  y : ℝ
  z : ℝ

namespace Vec3

/-- Embedding of `Vec3::zero`. -/
def zero : Vec3 := ⟨0, 0, 0⟩

/-- Embedding of `Vec3::new`; the `Into<f64>` conversions of the Rust
generic constructor are identities in the real-number model. -/
def new (x y z : ℝ) : Vec3 := ⟨x, y, z⟩

/-- Embedding of `impl ops::Add<Vec3> for Vec3`. -/
def add (self rhs : Vec3) : Vec3 :=
  Vec3.new (self.x + rhs.x) (self.y + rhs.y) (self.z + rhs.z)

/-- Embedding of `impl ops::Sub<Vec3> for Vec3`. -/
def sub (self rhs : Vec3) : Vec3 :=
  Vec3.new (self.x - rhs.x) (self.y - rhs.y) (self.z - rhs.z)

/-- Embedding of `impl ops::Mul<Vec3> for Vec3` (Hadamard product). -/
def mul (self rhs : Vec3) : Vec3 :=
  Vec3.new (self.x * rhs.x) (self.y * rhs.y) (self.z * rhs.z)

/-- Embedding of `impl ops::Div<Vec3> for Vec3`: the body runs
`assert_ne!(rhs.x*rhs.y*rhs.z, 0., "Error: Division by 0")` and then
divides component-wise; `none` models the panic. -/
def divVec (self rhs : Vec3) : Option Vec3 :=
  if rhs.x * rhs.y * rhs.z = 0 then none
  else some (Vec3.new (self.x / rhs.x) (self.y / rhs.y) (self.z / rhs.z))

/-- Embedding of `impl<T: Into<f64>> ops::Mul<T> for Vec3`. -/
def mulScalar (self : Vec3) (rhs : ℝ) : Vec3 :=
  Vec3.new (self.x * rhs) (self.y * rhs) (self.z * rhs)

/-- Embedding of `impl<T: Into<f64>> ops::Div<T> for Vec3`: the body runs
`assert_ne!(val, 0., "Error : Division by 0")` and then divides each
component by the scalar; `none` models the panic. -/
def divScalar (self : Vec3) (rhs : ℝ) : Option Vec3 :=
  if rhs = 0 then none
  else some (Vec3.new (self.x / rhs) (self.y / rhs) (self.z / rhs))

end Vec3

/-- Embedding of `pub fn length`: `f64::sqrt((v.x*v.x)+(v.y*v.y)+(v.z*v.z))`. -/
def length (v : Vec3) : ℝ :=
  Real.sqrt ((v.x * v.x) + (v.y * v.y) + (v.z * v.z))

/-- Embedding of `pub fn length_sq`. -/
def length_sq (v : Vec3) : ℝ :=
  (v.x * v.x) + (v.y * v.y) + (v.z * v.z)

/-- Embedding of `Vec3::is_close`: `length(self-v).abs() < 0.000001`. -/
def Vec3.is_close (self v : Vec3) : Prop :=
  |length (self.sub v)| < 0.000001

/-- Embedding of `pub fn normalize`: `v / length(v)`, which goes through
the panicking scalar division. -/
def normalize (v : Vec3) : Option Vec3 :=
  v.divScalar (length v)

/-- Embedding of `pub fn dot`. -/
def dot (v1 v2 : Vec3) : ℝ :=
  v1.x * v2.x + v1.y * v2.y + v1.z * v2.z

/-- Embedding of `pub fn cross`. -/
def cross (v1 v2 : Vec3) : Vec3 :=
  ⟨v1.y * v2.z - v2.y * v1.z,
   v1.z * v2.x - v2.z * v1.x,
   v1.x * v2.y - v2.x * v1.y⟩

/-- Embedding of `pub fn reflect`: it shadows `n` with `normalize(n)`
(which can panic, propagated through `Option.map`) and then computes
`n * 2. * dot(n, v) - v`. -/
def reflect (v n : Vec3) : Option Vec3 :=
  (normalize n).map (fun m => ((m.mulScalar 2).mulScalar (dot m v)).sub v)

/-- Embedding of `pub fn reflect_opt`: `n * 2. * dot(n, v) - v` with no
normalization; total, but only meaningful for unit `n`. -/
def reflect_opt (v n : Vec3) : Vec3 :=
  ((n.mulScalar 2).mulScalar (dot n v)).sub v

/-- Embedding of `pub fn lerp`. -/
def lerp (v1 v2 : Vec3) (x : ℝ) : Vec3 :=
  Vec3.new (v1.x * (1 - x) + v2.x * x)
           (v1.y * (1 - x) + v2.y * x)
           (v1.z * (1 - x) + v2.z * x)

/-- Contract of `pub fn rand_in_unit_cube`: each component is drawn by
`rng.gen_range(-1.0..=1.0)`, a closed range. -/
def inUnitCube (a : Vec3) : Prop :=
  (-1 ≤ a.x ∧ a.x ≤ 1) ∧ (-1 ≤ a.y ∧ a.y ≤ 1) ∧ (-1 ≤ a.z ∧ a.z ≤ 1)

/-- One iteration of the rejection loop of `pub fn rand_on_unit_sphere`,
applied to the cube draw `a` of that iteration: if `length a < 1` the
loop returns `a / length a` (inner `Option` models the panicking scalar
division); otherwise (`none`) the sample is rejected and the loop
continues with a fresh draw. -/
def rand_on_unit_sphere_body (a : Vec3) : Option (Option Vec3) :=
  if length a < 1 then some (a.divScalar (length a)) else none

/-! Helper lemmas shared by several claims. -/

lemma length_nonneg (v : Vec3) : 0 ≤ length v :=
  Real.sqrt_nonneg _

lemma length_sq_pos_of_ne_zero (v : Vec3) (h : v ≠ Vec3.zero) :
    0 < length_sq v := by
  have hx := mul_self_nonneg v.x
  have hy := mul_self_nonneg v.y
  have hz := mul_self_nonneg v.z
  have hnn : (0:ℝ) ≤ length_sq v := by
    unfold length_sq
    positivity
  rcases lt_or_eq_of_le hnn with hlt | heq
  · exact hlt
  · exfalso
    apply h
    have h0 : (v.x * v.x) + (v.y * v.y) + (v.z * v.z) = 0 := by
      simpa [length_sq] using heq.symm
    have hx0 : v.x * v.x = 0 := by linarith
    have hy0 : v.y * v.y = 0 := by linarith
    have hz0 : v.z * v.z = 0 := by linarith
    ext
    · exact mul_self_eq_zero.mp hx0
    · exact mul_self_eq_zero.mp hy0
    · exact mul_self_eq_zero.mp hz0

lemma length_pos_of_ne_zero (v : Vec3) (h : v ≠ Vec3.zero) :
    0 < length v :=
  Real.sqrt_pos.mpr (length_sq_pos_of_ne_zero v h)

lemma length_of_div_components (v : Vec3) (l : ℝ) (hl : 0 < l)
    (hsq : l * l = (v.x * v.x) + (v.y * v.y) + (v.z * v.z)) :
    length (Vec3.new (v.x / l) (v.y / l) (v.z / l)) = 1 := by
  have hlne : l ≠ 0 := ne_of_gt hl
  simp only [length, Vec3.new]
  have hcomp : v.x / l * (v.x / l) + v.y / l * (v.y / l) + v.z / l * (v.z / l) = 1 := by
    field_simp
    ring_nf
    ring_nf at hsq
    linarith
  rw [hcomp, Real.sqrt_one]

/-! Theorems for the claims. -/

/-- C3: `normalize` applied to the zero vector (0,0,0) fails fatally
with a division-by-zero error: in the embedding it returns `none`, so
there is no partial result and no fallback direction. -/
theorem normalize_zero_vector_fails : normalize Vec3.zero = none := by
  have h : length Vec3.zero = 0 := by
    simp [length, Vec3.zero]
  simp [normalize, Vec3.divScalar, h]

/-- C6: for all vectors `a` and `b`, `(a + b) - b == a` component-wise
(exact equality in the real-number model of `f64`). -/
theorem vec3_add_sub_cancel (a b : Vec3) : (a.add b).sub b = a := by
  ext <;> simp [Vec3.add, Vec3.sub, Vec3.new]

/-- C8: for all vectors `a` and `b`, `cross a b` equals `cross b a` with
every component negated (anticommutativity), under exact equality. -/
theorem cross_anticomm (a b : Vec3) :
    cross a b = Vec3.new (-(cross b a).x) (-(cross b a).y) (-(cross b a).z) := by
  ext <;> simp [cross, Vec3.new]

/-- C9: approximate equality is reflexive: for every `Vec3 v` (all
components finite in the real-number model), `v.is_close v` holds, since
`v - v` is the zero vector of length 0 < 1e-6. -/
theorem is_close_refl (v : Vec3) : v.is_close v := by
  have h : length (v.sub v) = 0 := by
    simp [length, Vec3.sub, Vec3.new]
  rw [Vec3.is_close, h]
  norm_num

/-- C1: component-wise vector division fails fatally (returns `none`,
modelling the "division by zero" panic) iff at least one of the
divisor's three components is exactly zero — the implemented test
`rhs.x*rhs.y*rhs.z != 0` is equivalent to that over the reals — and
when it does not fail it returns the component-wise quotient. -/
theorem divVec_spec (a b : Vec3) :
    (Vec3.divVec a b = none ↔ (b.x = 0 ∨ b.y = 0 ∨ b.z = 0)) ∧
    ((b.x ≠ 0 ∧ b.y ≠ 0 ∧ b.z ≠ 0) →
      Vec3.divVec a b = some (Vec3.new (a.x / b.x) (a.y / b.y) (a.z / b.z))) := by
  have hiff : b.x * b.y * b.z = 0 ↔ (b.x = 0 ∨ b.y = 0 ∨ b.z = 0) := by
    rw [mul_eq_zero, mul_eq_zero, or_assoc]
  constructor
  · by_cases hb : b.x = 0 ∨ b.y = 0 ∨ b.z = 0 <;> simp [Vec3.divVec, hiff, hb]
  · rintro ⟨h1, h2, h3⟩
    have hb : ¬(b.x * b.y * b.z = 0) := fun h0 => by
      rcases hiff.mp h0 with h | h | h
      exacts [h1 h, h2 h, h3 h]
    simp [Vec3.divVec, hb]

/-- Witness for C1 at a = (4,5,6), b = (1,2,3). -/
theorem divVec_spec_witness :
    ((Vec3.new 1 2 3).x ≠ 0 ∧ (Vec3.new 1 2 3).y ≠ 0 ∧ (Vec3.new 1 2 3).z ≠ 0) ∧
    Vec3.divVec (Vec3.new 4 5 6) (Vec3.new 1 2 3) =
      some (Vec3.new ((Vec3.new 4 5 6).x / (Vec3.new 1 2 3).x)
                     ((Vec3.new 4 5 6).y / (Vec3.new 1 2 3).y)
                     ((Vec3.new 4 5 6).z / (Vec3.new 1 2 3).z)) := by
  have h : (Vec3.new 1 2 3).x ≠ 0 ∧ (Vec3.new 1 2 3).y ≠ 0 ∧ (Vec3.new 1 2 3).z ≠ 0 := by
    refine ⟨?_, ?_, ?_⟩ <;> norm_num [Vec3.new]
  exact ⟨h, (divVec_spec (Vec3.new 4 5 6) (Vec3.new 1 2 3)).2 h⟩

/-- C4: vector-by-scalar division fails fatally (returns `none`,
modelling the "division by zero" panic) iff the scalar is zero; for a
non-zero scalar it divides each of the three components by it. -/
theorem divScalar_spec (a : Vec3) (s : ℝ) :
    (Vec3.divScalar a s = none ↔ s = 0) ∧
    (s ≠ 0 → Vec3.divScalar a s = some (Vec3.new (a.x / s) (a.y / s) (a.z / s))) := by
  constructor
  · by_cases hs : s = 0 <;> simp [Vec3.divScalar, hs]
  · intro hs
    simp [Vec3.divScalar, hs]

/-- Witness for C4 at a = (4,5,6), s = 2. -/
theorem divScalar_spec_witness :
    (2:ℝ) ≠ 0 ∧ Vec3.divScalar (Vec3.new 4 5 6) 2 =
      some (Vec3.new ((Vec3.new 4 5 6).x / 2) ((Vec3.new 4 5 6).y / 2)
                     ((Vec3.new 4 5 6).z / 2)) := by
  have h : (2:ℝ) ≠ 0 := by norm_num
  exact ⟨h, (divScalar_spec (Vec3.new 4 5 6) 2).2 h⟩

/-- C2: for every non-zero vector `v`, `normalize v` succeeds and the
length of the result is within 1e-6 of 1 (in the real-number model it
is exactly 1). -/
theorem normalize_unit_length (v : Vec3) (hv : v ≠ Vec3.zero) :
    ∃ u, normalize v = some u ∧ |length u - 1| < 0.000001 := by
  have hl : 0 < length v := length_pos_of_ne_zero v hv
  have hlne : length v ≠ 0 := ne_of_gt hl
  have hsq : length v * length v = (v.x * v.x) + (v.y * v.y) + (v.z * v.z) :=
    Real.mul_self_sqrt
      (add_nonneg (add_nonneg (mul_self_nonneg _) (mul_self_nonneg _)) (mul_self_nonneg _))
  refine ⟨Vec3.new (v.x / length v) (v.y / length v) (v.z / length v), ?_, ?_⟩
  · simp [normalize, Vec3.divScalar, hlne]
  · rw [length_of_div_components v (length v) hl hsq]
    norm_num

/-- Witness for C2 at v = (3,0,4). -/
theorem normalize_unit_length_witness :
    Vec3.new 3 0 4 ≠ Vec3.zero ∧
    ∃ u, normalize (Vec3.new 3 0 4) = some u ∧ |length u - 1| < 0.000001 := by
  have h : Vec3.new 3 0 4 ≠ Vec3.zero := by
    intro hc
    have hx := congrArg Vec3.x hc
    norm_num [Vec3.new, Vec3.zero] at hx
  exact ⟨h, normalize_unit_length _ h⟩

/-- C5: for every vector `v` and non-zero vector `n`, the convenience
variant `reflect v n` (which normalizes `n` internally) produces exactly
`reflect_opt v u` where `u` is the normalization of `n`. -/
theorem reflect_eq_reflect_opt_of_normalize (v n : Vec3) (hn : n ≠ Vec3.zero) :
    ∃ u, normalize n = some u ∧ reflect v n = some ( reflect_opt v u) := by
  have hlne : length n ≠ 0 := ne_of_gt (length_pos_of_ne_zero n hn)
  refine ⟨Vec3.new (n.x / length n) (n.y / length n) (n.z / length n), ?_, ?_⟩
  · simp [normalize, Vec3.divScalar, hlne]
  · simp [reflect, normalize, Vec3.divScalar, hlne, reflect_opt]

/-- Witness for C5 at v = (1,1,0), n = (0,4,0) (the test-suite inputs). -/
theorem reflect_eq_reflect_opt_of_normalize_witness :
    Vec3.new 0 4 0 ≠ Vec3.zero ∧
    ∃ u, normalize (Vec3.new 0 4 0) = some u ∧
      reflect (Vec3.new 1 1 0) (Vec3.new 0 4 0) = some ( reflect_opt (Vec3.new 1 1 0) u) := by
  have h : Vec3.new 0 4 0 ≠ Vec3.zero := by
    intro hc
    have hy := congrArg Vec3.y hc
    norm_num [Vec3.new, Vec3.zero] at hy
  exact ⟨h, reflect_eq_reflect_opt_of_normalize _ _ h⟩

/-- C7: `is_close a b` holds iff the Euclidean length of `a - b` is
strictly below 1e-6; it is a combined-magnitude threshold: a pair
differing by (1e-7, 1e-7, 1e-7) is close while a pair differing by
(1e-3, 0, 0) is not. -/
theorem is_close_spec :
    (∀ a b : Vec3, (a.is_close b ↔ length (a.sub b) < 0.000001)) ∧
    (Vec3.new 0.0000001 0.0000001 0.0000001).is_close Vec3.zero ∧
    ¬ (Vec3.new 0.001 0 0).is_close Vec3.zero := by
  have habs : ∀ a b : Vec3, |length (a.sub b)| = length (a.sub b) :=
    fun a b => abs_of_nonneg (length_nonneg _)
  refine ⟨fun a b => by rw [Vec3.is_close, habs], ?_, ?_⟩
  · rw [Vec3.is_close, habs]
    simp only [length, Vec3.sub, Vec3.new, Vec3.zero]
    rw [Real.sqrt_lt' (by norm_num)]
    norm_num
  · rw [Vec3.is_close, habs]
    push_neg
    simp only [length, Vec3.sub, Vec3.new, Vec3.zero]
    rw [Real.le_sqrt' (by norm_num)]
    norm_num

/-- C10: the acceptance test `length a < 1` of `rand_on_unit_sphere`
admits the possible unit-cube draw (0,0,0): the zero vector lies in the
closed cube, it is accepted (length 0 < 1), and the accepted sample is
divided by its own length 0, so the iteration hits the fatal
division-by-zero branch (`some none`) instead of producing a unit
vector. -/
theorem rand_on_unit_sphere_div_by_zero_reachable :
    inUnitCube Vec3.zero ∧ rand_on_unit_sphere_body Vec3.zero = some none := by
  have h : length Vec3.zero = 0 := by
    simp [length, Vec3.zero]
  constructor
  · norm_num [inUnitCube, Vec3.zero]
  · rw [rand_on_unit_sphere_body, h]
    norm_num [Vec3.divScalar]

end LinAlg
